import Mathlib

/-!
Verification of the musicbot catalog engine (src/bot.py).

Shallow embedding conventions:
* The MongoDB collections `tracks` and `users` become explicit lists inside a
  `DBState`; operations that may write are state-passing functions
  `DBState → ... → DBState × output`.
* The external text index (`$text` search with `textScore`) is not implemented
  by the bot; `search_tracks` therefore takes the ranked result sequence the
  index would return (descending score, total count = length, matching
  `cursor.count()` which ignores `skip`/`limit`).  `search_db` shows how that
  sequence is derived from the store given an index scoring function.
* Relevance scores (floats in Mongo) are modelled as rationals.
* Python exceptions are modelled as `none`/`Option`: `results[0]` on an empty
  window raises `IndexError`, `math.log10(0)` raises `ValueError`.
* Byte sizes: the rank comes from the IEEE-double `math.log10`, modelled
  exactly by `floatLog10Floor` (the digit-count floor, plus the two inputs
  where double rounding crosses an integer boundary); `human_size` then
  divides by `1024.0 ** rank` — for `nbytes < 2^53` the Python float holds
  `nbytes / 1024^rank` exactly, and `'%.2f'` renders the correctly-rounded
  (round-half-even) two-decimal form of that exact rational, which is what
  `cents` computes in integer arithmetic.
-/

namespace Musicbot

/-- One character of a decimal rendering: `digitChar n` is the digit of
`n % 10`, as produced by Python's `%d` formatting digit by digit. -/
def digitChar (n : Nat) : Char := Char.ofNat (48 + n % 10)

/-- Fuel-indexed decimal rendering accumulator (least-significant digit is
pushed onto `acc` first), structurally recursive so that the kernel can
evaluate it. -/
def natDigitsAux : Nat → Nat → List Char → List Char
  | 0, _, acc => acc
  | fuel + 1, n, acc =>
    if n < 10 then digitChar n :: acc
    else natDigitsAux fuel (n / 10) (digitChar n :: acc)

/-- Decimal digit string of `n`, as Python's `'%d' % n` renders it
(`n + 1` fuel always suffices since a number has at most `n + 1` digits). -/
def natDigits (n : Nat) : List Char := natDigitsAux (n + 1) n []

/-- `c.isDigit`, the character class matched by the regex `\d`. -/
def isDigitCh (c : Char) : Bool := c.isDigit

/-- Numeric value of a digit character (`int` on a digit string works
digit by digit with this). -/
def digitVal (c : Char) : Nat := c.toNat - 48

/-- `int(s)` on a digit string. -/
def digitsVal (cs : List Char) : Nat := cs.foldl (fun a c => a * 10 + digitVal c) 0

/-! ## Data model (spec §3, src/bot.py audio handling) -/

/-- A submission payload as delivered by the transport: the `audio` dict of
`add_track` (src/bot.py:57-70).  Optional fields are absent keys. -/
structure Audio where
  file_id : String
  title : Option String
  performer : Option String
  duration : Option Nat
  file_size : Option Nat
deriving DecidableEq

/-- A persisted track document: the audio payload plus the `sender` field
attached before `insert_one` (src/bot.py:65-67). -/
structure Track extends Audio where
  sender : Nat
deriving DecidableEq

/-- The store: the `tracks` and `users` Mongo collections (src/bot.py:46-54).
Users are reduced to their `id` field, the only one the bot reads. -/
structure DBState where
  tracks : List Track
  users : List Nat
deriving DecidableEq

/-- Message of src/bot.py:63. -/
def missing_title_msg : String := "Sorry, but your track is missing title"

/-- Message of src/bot.py:31-34 (`not_found`). -/
def not_found : String :=
  "\nWe don\x27t have anything matching your search yet :/\nBut you can fix it by sending us the tracks you love as audio files!\n"

/-- Ingestion handler `add_track` (src/bot.py:57-70): dedup lookup on
`file_id` first (silent no-op), then title validation (corrective message,
no write), then insert of the payload with `sender` attached.  The returned
`Option String` is the message sent to the chat (`none` = silence). -/
def add_track (s : DBState) (sender : Nat) (audio : Audio) : DBState × Option String :=
  if s.tracks.any (fun t => t.file_id == audio.file_id) then
    (s, none)
  else
    match audio.title with
    | none => (s, some missing_title_msg)
    | some _ =>
      ({ s with tracks := s.tracks ++ [{ audio with sender := sender }] }, none)

/-! ## Stats formatting (src/bot.py:139-145) -/

/-- Round-half-even of `100 * n / d` (with `d > 0`): the exact two-decimal
rounding that `'%.2f' % (n / d)` performs when the float quotient is exact
(true for `d` a power of two and `n < 2^53`). -/
def cents (n d : Nat) : Nat :=
  let t := 100 * n
  let q := t / d
  let r := t % d
  if 2 * r < d then q
  else if d < 2 * r then q + 1
  else if q % 2 = 0 then q else q + 1

/-- Render a cent count the way `'%.2f'` renders the value: integer part,
dot, two zero-padded fraction digits. -/
def fmtCents (c : Nat) : List Char :=
  natDigits (c / 100) ++ '.' :: (if c % 100 < 10 then '0' :: natDigits (c % 100) else natDigits (c % 100))

/-- Python's `str.rstrip(ch)`: drop every trailing occurrence of `ch`. -/
def rstripCh (ch : Char) (cs : List Char) : List Char :=
  (cs.reverse.dropWhile (fun c => c == ch)).reverse

/-- The `suffixes` list of src/bot.py:140, indexed by rank
(rank is clamped to `≤ 5 = len(suffixes) - 1`). -/
def unitFor : Nat → String
  | 0 => "B"
  | 1 => "KB"
  | 2 => "MB"
  | 3 => "GB"
  | 4 => "TB"
  | _ => "PB"

/-- `⌊fl(log10 n)⌋` for `n ≥ 1`: the integer part of the IEEE double that
`math.log10(nbytes)` returns (CPython computes the correctly-rounded double
of the exact integer's log).  It equals the exact `⌊log10 n⌋` — the digit
count minus one — except where rounding crosses an integer boundary: near
`10^k` the gap `log10 10^k − log10 (10^k − m) ≈ m · 0.4343 · 10^(−k)` falls
below the rounding radius `ulp(k)/2` only at `k = 15` with `m ≤ 2` among
the boundaries that can change the clamped rank (`ulp(15)/2 = 2^(−50) ≈
8.88e−16` and `m · 4.343e−16 ≤ 8.88e−16` iff `m ≤ 2`; at `k = 3, 6, 9, 12`
the radius is at most `8.9e−16` while the gap is at least `4.3e−13`;
boundaries `k ≥ 18` only move the pre-clamp rank between values `≥ 5`,
which `min(·, 5)` erases; for `n` just above an exact power the floor is
unchanged by rounding down-to-`k`).  The subsequent float division by 3
crosses no further integer: for each `j ≤ 5` the largest double below `3j`
divides to a value that still rounds strictly below `j`.  Hence this value,
divided by 3 and clamped, is the code's rank for every `n ≥ 1`. -/
def floatLog10Floor (n : Nat) : Nat :=
  if n = 10 ^ 15 - 1 ∨ n = 10 ^ 15 - 2 then 15
  else (natDigits n).length - 1

/-- `human_size` (src/bot.py:139-145).
`rank = int(math.log10(nbytes) / 3)`: the truncation of the float quotient
is `⌊fl(log10 n)⌋ / 3` (see `floatLog10Floor`); the rank is then clamped by
`min` to 5.  `math.log10(0)` raises `ValueError`, modelled as `none`.
The scaled value `nbytes / 1024.0 ** rank` is rendered by `'%.2f'`
(round-half-even, exact for `nbytes < 2^53`), then `.rstrip('0').rstrip('.')`. -/
def human_size (nbytes : Nat) : Option String :=
  if nbytes = 0 then none
  else
    let rank := min (floatLog10Floor nbytes / 3) 5
    let c := cents nbytes (1024 ^ rank)
    some (String.mk (rstripCh '.' (rstripCh '0' (fmtCents c))) ++ " " ++ unitFor rank)

/-! ## Search & pagination engine (src/bot.py:158-198) -/

/-- A `SearchResult`: a track annotated with the index's relevance score
(`textScore`, a non-negative float, modelled as a rational). -/
structure SearchResult where
  track : Track
  score : ℚ
deriving DecidableEq

/-- The reply keyboard attached to each sent track (src/bot.py:187-195):
either the one-button "show more" keyboard carrying the continuation label,
or `hide_keyboard`. -/
inductive Keyboard where
  | showMoreKb (label : String)
  | hideKb
deriving DecidableEq

/-- What `search_tracks` sends back to the chat: either a plain text message,
or a sequence of `send_track` calls (each carries the same keyboard). -/
inductive BotReply where
  | sendText (msg : String)
  | sendTracks (tracks : List Track) (kb : Keyboard)
deriving DecidableEq

/-- The double-quote character (written by code so that the label strings
stay free of escaped quotes). -/
def quoteCh : Char := Char.ofNat 34

/-- Newline character (regex `.` does not match it). -/
def nlCh : Char := Char.ofNat 10

/-- Literal chunk of the emitted button label after the `(page/pages)`
prefix: `' Show more for "'` (src/bot.py:189, `%`-format template
`'(%d/%d) Show more for "%s"'`). -/
def labelLit : List Char := (" Show more for ").data ++ [quoteCh]

/-- The button label `'(%d/%d) Show more for "%s"' % (page, pages, query)`
(src/bot.py:189), as a character list. -/
def mkLabelData (page pages : Nat) (query : List Char) : List Char :=
  '(' :: (natDigits page ++ '/' :: (natDigits pages ++ ')' :: (labelLit ++ (query ++ [quoteCh]))))

/-- String form of the continuation button label. -/
def mkLabel (page pages : Nat) (query : String) : String :=
  String.mk (mkLabelData page pages query.data)

/-- `search_tracks` (src/bot.py:165-198), given the full ranked result
sequence `ranked` the index returns for `query` (descending score).
Mirrors the source line by line:
* `limit = 3`, `offset = (page - 1) * limit`;
* the cursor window is `skip(offset).limit(limit)`, i.e.
  `(ranked.drop offset).take 3`;
* `count = results.count()` ignores skip/limit: `ranked.length`;
* `count == 0` sends `not_found` and returns;
* `results[0]` is the first document of the window: a pymongo integer index
  adds to the cursor's existing skip (`clone.skip(index + skip)`); on an
  empty window (page beyond the end) pymongo raises `IndexError`, modelled
  as `none`;
* score `≥ 2` rebinds `limit = 1` and re-slices the cursor with
  `results[:1]`; a pymongo *slice* index overrides any prior skip and limit
  on the cursor (its documented behaviour), so the single document iterated
  afterwards is the globally top-ranked one, `ranked.take 1` — not the
  window head — while the rebound `limit` feeds `newoff` and `pages`;
* `show_more = count > offset + limit`; if so the keyboard carries
  `'(%d/%d) Show more for "%s"' % (page, math.ceil(count / limit), query)`
  (Nat ceiling `(count + limit - 1) / limit`), else `hide_keyboard`;
* one `send_track` per remaining result. -/
def search_tracks (ranked : List SearchResult) (query : String) (page : Nat) : Option BotReply :=
  let limit := 3
  let offset := (page - 1) * limit
  let window := (ranked.drop offset).take limit
  let count := ranked.length
  if count = 0 then some (BotReply.sendText not_found)
  else
    match window.head? with
    | none => none
    | some top =>
      let limit2 := if 2 ≤ top.score then 1 else limit
      let results := if 2 ≤ top.score then ranked.take 1 else window
      let newoff := offset + limit2
      if newoff < count then
        some (BotReply.sendTracks (results.map SearchResult.track)
          (Keyboard.showMoreKb (mkLabel page ((count + limit2 - 1) / limit2) query)))
      else
        some (BotReply.sendTracks (results.map SearchResult.track) Keyboard.hideKb)

/-- Tracks carried by a reply, when it is a track sequence. -/
def tracksOf : Option BotReply → Option (List Track)
  | some (BotReply.sendTracks ts _) => some ts
  | _ => none

/-- Keyboard carried by a reply, when it is a track sequence. -/
def keyboardOf : Option BotReply → Option Keyboard
  | some (BotReply.sendTracks _ kb) => some kb
  | _ => none

/-- `search_db` (src/bot.py:158-162): the `$text` query hands matching back
to the external index.  Modelled with an index scoring function `sc`: the
matching documents are those with positive score, ordered by descending
`textScore` (tie order is index-defined; any descending-score order is a
faithful model). -/
def insertByScore (r : SearchResult) : List SearchResult → List SearchResult
  | [] => [r]
  | x :: xs => if x.score < r.score then r :: x :: xs else x :: insertByScore r xs

/-- Sort by descending score (insertion sort). -/
def sortByScore (l : List SearchResult) : List SearchResult := l.foldr insertByScore []

/-- The ranked cursor `search_db` builds from the store for a query, given
the index's scoring function. -/
def search_db (sc : String → Track → ℚ) (query : String) (s : DBState) : List SearchResult :=
  sortByScore ((s.tracks.filter (fun t => decide (0 < sc query t))).map
    (fun t => { track := t, score := sc query t }))

/-- `search_tracks` as a state transformer over the whole store: it only
issues `find`/`count` reads, so the state is returned untouched
(src/bot.py:165-198 contains no `insert`/`update`/`delete`). -/
def search_tracks_st (sc : String → Track → ℚ) (s : DBState) (query : String) (page : Nat) :
    DBState × Option BotReply :=
  (s, search_tracks (search_db sc query s) query page)

/-! ## The "show more" continuation handler (src/bot.py:80-83)

The transport layer (aiotg) dispatches incoming message text against each
registered command pattern with `re.search(pattern, text, re.IGNORECASE)`;
the `more` handler's pattern is `\((\d+)/\d+\) show more for "(.+)"`.
`parseMore` models that regex applied to a continuation button label:
literal characters are compared case-insensitively, `(\d+)` takes the
maximal digit run, and the greedy-with-backtracking `(.+)"` captures the
longest non-empty newline-free prefix of the remaining text that is
followed by a `"` (`.` does not match a newline, so the engine backtracks
from the last quote down to the last quote before the first newline, and
fails when no quote precedes it).  The match is modelled at position 0 of
the text; `re.search`'s scan to later start positions can only matter when
the query itself embeds another full label-shaped text, which no claim's
domain reaches. -/

/-- Literal chunk of the handler's pattern after `\((\d+)/\d+\)`:
`' show more for "'`. -/
def moreLit : List Char := (" show more for ").data ++ [quoteCh]

/-- Case-insensitive literal matcher: consumes `pat` from the front of the
input (as `re.IGNORECASE` compares the pattern's literal characters),
returning the rest. -/
def matchCI : List Char → List Char → Option (List Char)
  | [], rest => some rest
  | _ :: _, [] => none
  | p :: ps, c :: cs => if p.toLower = c.toLower then matchCI ps cs else none

/-- Consume one expected literal character (a case-sensitive literal of the
pattern). -/
def expectCh (ch : Char) : List Char → Option (List Char)
  | c :: r => if c = ch then some r else none
  | [] => none

/-- `(\d+)`: the maximal leading digit run, failing when empty, returning
its `int` value and the rest. -/
def parseNat (s : List Char) : Option (Nat × List Char) :=
  if s.takeWhile isDigitCh = [] then none
  else some (digitsVal (s.takeWhile isDigitCh), s.dropWhile isDigitCh)

/-- The greedy `(.+)"` at the end of the pattern.  `.` matches any
character except a newline, so the closing `"` the engine settles on after
backtracking is the LAST quote inside the newline-free prefix of the
remaining text; the capture is everything before it and must be non-empty
(`.+`).  When no quote at index `≥ 1` precedes the first newline, the match
fails. -/
def lastQuoteCapture (r : List Char) : Option (List Char) :=
  let pre := r.takeWhile (fun c => c != nlCh)
  match pre.reverse.dropWhile (fun c => c != quoteCh) with
  | [] => none
  | _ :: revCapture =>
    if revCapture = [] then none
    else some revCapture.reverse

/-- The `more` handler's regex match on a message text (leftmost match at
position 0, the only position a well-formed label can match):
returns `(int(group(1)), group(2))`. -/
def parseMore (s : List Char) : Option (Nat × List Char) := do
  let r0 ← expectCh '(' s
  let pr ← parseNat r0
  let r2 ← expectCh '/' pr.2
  let tr ← parseNat r2
  let r4 ← expectCh ')' tr.2
  let r5 ← matchCI moreLit r4
  let content ← lastQuoteCapture r5
  some (pr.1, content)

/-- The `more` handler (src/bot.py:80-83): on a regex match it calls
`search_tracks(chat, match.group(2), int(match.group(1)) + 1)`.
Returns the `(query, page)` arguments of that call. -/
def moreArgs (text : String) : Option (String × Nat) :=
  match parseMore text.data with
  | some pq => some (String.mk pq.2, pq.1 + 1)
  | none => none

/-! ## Lemmas about decimal digit strings -/

/-- Peeling the accumulator off `natDigitsAux`. -/
theorem natDigitsAux_acc (fuel : Nat) :
    ∀ n acc, natDigitsAux fuel n acc = natDigitsAux fuel n [] ++ acc := by
  induction fuel with
  | zero => intro n acc; simp [natDigitsAux]
  | succ f ih =>
    intro n acc
    by_cases h : n < 10
    · simp [natDigitsAux, h]
    · simp only [natDigitsAux, if_neg h]
      rw [ih (n / 10) (digitChar n :: acc), ih (n / 10) [digitChar n]]
      simp

/-- Every produced character is a decimal digit. -/
theorem isDigitCh_digitChar (n : Nat) : isDigitCh (digitChar n) = true := by
  unfold digitChar isDigitCh
  have h : n % 10 < 10 := Nat.mod_lt _ (by norm_num)
  set m := n % 10 with hm
  interval_cases m <;> decide

/-- Reading a produced digit character back gives the digit. -/
theorem digitVal_digitChar (n : Nat) : digitVal (digitChar n) = n % 10 := by
  unfold digitChar digitVal
  have h : n % 10 < 10 := Nat.mod_lt _ (by norm_num)
  set m := n % 10 with hm
  interval_cases m <;> decide

theorem digitsVal_append_singleton (xs : List Char) (c : Char) :
    digitsVal (xs ++ [c]) = digitsVal xs * 10 + digitVal c := by
  unfold digitsVal
  rw [List.foldl_append]
  rfl

theorem digitsVal_natDigitsAux :
    ∀ fuel n, n < 10 ^ fuel → digitsVal (natDigitsAux fuel n []) = n := by
  intro fuel
  induction fuel with
  | zero =>
    intro n h
    simp only [pow_zero, Nat.lt_one_iff] at h
    subst h
    rfl
  | succ f ih =>
    intro n h
    by_cases h10 : n < 10
    · simp only [natDigitsAux, if_pos h10]
      show 0 * 10 + digitVal (digitChar n) = n
      rw [digitVal_digitChar]
      omega
    · simp only [natDigitsAux, if_neg h10]
      rw [natDigitsAux_acc, digitsVal_append_singleton, digitVal_digitChar]
      have hb : n / 10 < 10 ^ f := by
        rw [Nat.div_lt_iff_lt_mul (by norm_num)]
        calc n < 10 ^ (f + 1) := h
          _ = 10 ^ f * 10 := by ring
      rw [ih (n / 10) hb]
      omega

/-- `int` is a left inverse of `'%d'` formatting (a round trip the
continuation handler relies on). -/
theorem digitsVal_natDigits (n : Nat) : digitsVal (natDigits n) = n := by
  apply digitsVal_natDigitsAux
  calc n < 10 ^ n := Nat.lt_pow_self (by norm_num) n
    _ ≤ 10 ^ (n + 1) := Nat.pow_le_pow_right (by norm_num) (Nat.le_succ n)

theorem mem_natDigitsAux_digit :
    ∀ fuel n c, c ∈ natDigitsAux fuel n [] → isDigitCh c = true := by
  intro fuel
  induction fuel with
  | zero => intro n c hc; simp [natDigitsAux] at hc
  | succ f ih =>
    intro n c hc
    by_cases h10 : n < 10
    · simp only [natDigitsAux, if_pos h10, List.mem_singleton] at hc
      subst hc
      exact isDigitCh_digitChar n
    · rw [natDigitsAux, if_neg h10, natDigitsAux_acc] at hc
      rcases List.mem_append.mp hc with h | h
      · exact ih _ _ h
      · rw [List.mem_singleton] at h
        subst h
        exact isDigitCh_digitChar n

theorem mem_natDigits_digit (n : Nat) (c : Char) (hc : c ∈ natDigits n) :
    isDigitCh c = true :=
  mem_natDigitsAux_digit (n + 1) n c hc

theorem natDigits_ne_nil (n : Nat) : natDigits n ≠ [] := by
  unfold natDigits
  rw [natDigitsAux]
  by_cases h : n < 10
  · simp [h]
  · rw [if_neg h, natDigitsAux_acc]
    simp

/-- A digit-character bound on `natDigitsAux` output length:
`10^(len-1) ≤ n < 10^len`, i.e. the length is the decimal digit count. -/
theorem natDigitsAux_bounds :
    ∀ fuel n, 1 ≤ n → n < 10 ^ fuel →
      10 ^ ((natDigitsAux fuel n []).length - 1) ≤ n ∧
      n < 10 ^ (natDigitsAux fuel n []).length := by
  intro fuel
  induction fuel with
  | zero =>
    intro n h1 h2
    simp only [pow_zero] at h2
    omega
  | succ f ih =>
    intro n h1 h2
    by_cases h10 : n < 10
    · rw [natDigitsAux, if_pos h10]
      constructor
      · simpa using h1
      · simpa using h10
    · rw [natDigitsAux, if_neg h10, natDigitsAux_acc]
      have hb : n / 10 < 10 ^ f := by
        rw [Nat.div_lt_iff_lt_mul (by norm_num)]
        calc n < 10 ^ (f + 1) := h2
          _ = 10 ^ f * 10 := by ring
      have h1' : 1 ≤ n / 10 := (Nat.one_le_div_iff (by norm_num)).mpr (by omega)
      obtain ⟨hl, hu⟩ := ih (n / 10) h1' hb
      have hLpos : 1 ≤ (natDigitsAux f (n / 10) []).length := by
        by_contra hc
        have : (natDigitsAux f (n / 10) []).length = 0 := by omega
        rw [this] at hu
        simp only [pow_zero] at hu
        omega
      rw [List.length_append, List.length_singleton]
      set L := (natDigitsAux f (n / 10) []).length with hLdef
      constructor
      · have e1 : 10 ^ (L + 1 - 1) = 10 ^ (L - 1) * 10 := by
          rw [← pow_succ]
          congr 1
          omega
        have e2 : (n / 10) * 10 ≤ n := Nat.div_mul_le_self n 10
        calc 10 ^ (L + 1 - 1) = 10 ^ (L - 1) * 10 := e1
          _ ≤ (n / 10) * 10 := by exact Nat.mul_le_mul_right 10 hl
          _ ≤ n := e2
      · have e1 : 10 ^ (L + 1) = 10 ^ L * 10 := by ring
        have e2 : n = 10 * (n / 10) + n % 10 := by omega
        have e3 : n % 10 < 10 := Nat.mod_lt _ (by norm_num)
        omega

/-- The decimal digit count realises `⌊log10⌋`: for `n ≥ 1`,
`(natDigits n).length - 1 = Nat.log 10 n`, the floor of the real `log10 n`
that `int(math.log10(nbytes))` computes. -/
theorem natDigits_length_log (n : Nat) (h : 1 ≤ n) :
    (natDigits n).length - 1 = Nat.log 10 n := by
  have hfuel : n < 10 ^ (n + 1) := by
    calc n < 10 ^ n := Nat.lt_pow_self (by norm_num) n
      _ ≤ 10 ^ (n + 1) := Nat.pow_le_pow_right (by norm_num) (Nat.le_succ n)
  obtain ⟨hl, hu⟩ := natDigitsAux_bounds (n + 1) n h hfuel
  have hlen : 1 ≤ (natDigits n).length := by
    have := natDigits_ne_nil n
    cases hx : natDigits n with
    | nil => exact absurd hx this
    | cons a l => simp [hx]
  symm
  unfold natDigits
  unfold natDigits at hlen
  apply Nat.log_eq_of_pow_le_of_lt_pow hl
  have h2 : (natDigitsAux (n + 1) n []).length - 1 + 1 = (natDigitsAux (n + 1) n []).length := by
    omega
  rw [h2]
  exact hu

/-! ## Lemmas about the continuation label parse -/

theorem takeWhile_append_of (ds : List Char) (c : Char) (rest : List Char)
    (hd : ∀ x ∈ ds, isDigitCh x = true) (hc : isDigitCh c = false) :
    (ds ++ c :: rest).takeWhile isDigitCh = ds ∧
    (ds ++ c :: rest).dropWhile isDigitCh = c :: rest := by
  induction ds with
  | nil => simp [List.takeWhile_cons, List.dropWhile_cons, hc]
  | cons a as ih =>
    have ha : isDigitCh a = true := hd a (List.mem_cons_self a as)
    have ih' := ih (fun x hx => hd x (List.mem_cons_of_mem a hx))
    simp [List.takeWhile_cons, List.dropWhile_cons, ha, ih'.1, ih'.2]

theorem expectCh_cons (ch : Char) (r : List Char) : expectCh ch (ch :: r) = some r := by
  simp [expectCh]

/-- `(\d+)` applied to a `'%d'`-rendered number followed by a non-digit
recovers that number. -/
theorem parseNat_digits (n : Nat) (c : Char) (rest : List Char) (hc : isDigitCh c = false) :
    parseNat (natDigits n ++ c :: rest) = some (n, c :: rest) := by
  obtain ⟨ht, hdw⟩ :=
    takeWhile_append_of (natDigits n) c rest (fun x hx => mem_natDigits_digit n x hx) hc
  unfold parseNat
  rw [ht, hdw, if_neg (natDigits_ne_nil n), digitsVal_natDigits]

/-- The pattern literal `' show more for "'` matches the label literal
`' Show more for "'` case-insensitively. -/
theorem matchCI_labelLit (rest : List Char) : matchCI moreLit (labelLit ++ rest) = some rest := rfl

theorem lastQuoteCapture_concat (q : List Char) (hq : q ≠ []) (hn : q.contains nlCh = false) :
    lastQuoteCapture (q ++ [quoteCh]) = some q := by
  unfold lastQuoteCapture
  have hn2 : nlCh ∉ q := by simpa using hn
  have hpre : (q ++ [quoteCh]).takeWhile (fun c => c != nlCh) = q ++ [quoteCh] := by
    rw [List.takeWhile_eq_self_iff]
    intro c hc
    rcases List.mem_append.mp hc with h | h
    · simp only [bne_iff_ne, ne_eq]
      intro he
      exact hn2 (he ▸ h)
    · rw [List.mem_singleton] at h
      subst h
      decide
  rw [hpre]
  have hrq : ¬ q.reverse = [] := by
    intro h0
    exact hq (by simpa using congrArg List.reverse h0)
  simp [List.dropWhile_cons, hrq]

/-- The handler's regex match on an emitted label recovers the page number
and the query verbatim (the query must be non-empty and newline-free, the
domain on which the greedy `(.+)"` capture is exact). -/
theorem parseMore_mkLabelData (page pages : Nat) (q : List Char)
    (hq : q ≠ []) (hn : q.contains nlCh = false) :
    parseMore (mkLabelData page pages q) = some (page, q) := by
  unfold parseMore mkLabelData
  rw [expectCh_cons]
  simp only [Option.bind_eq_bind, Option.some_bind]
  rw [parseNat_digits page '/' _ (by decide)]
  simp only [Option.some_bind]
  rw [expectCh_cons]
  simp only [Option.some_bind]
  rw [parseNat_digits pages ')' _ (by decide)]
  simp only [Option.some_bind]
  rw [expectCh_cons]
  simp only [Option.some_bind]
  rw [matchCI_labelLit]
  simp only [Option.some_bind]
  rw [lastQuoteCapture_concat q hq hn]
  simp only [Option.some_bind]

/-! ## Lemmas about `search_tracks` -/

theorem take_one_eq {α : Type} (l : List α) (a : α) (h : l.head? = some a) :
    l.take 1 = [a] := by
  cases l with
  | nil => simp at h
  | cons x xs =>
    simp only [List.head?_cons, Option.some.injEq] at h
    subst h
    rfl

theorem window_nonempty (ranked : List SearchResult) (k : Nat) (top : SearchResult)
    (hw : ((ranked.drop k).take 3).head? = some top) : ¬ ranked.length = 0 := by
  intro h0
  rw [List.length_eq_zero] at h0
  subst h0
  simp at hw

/-- Evaluation of `search_tracks` on the short-circuit path (windowed top
score `≥ 2`): the re-slice `results[:1]` overrides the cursor's skip, so
the one emitted track is the globally top-ranked `ranked.take 1`; `limit`
is rebound to 1, so the keyboard shows "show more" exactly when
`count > offset + 1`, with `pages = ceil(count/1) = count`. -/
theorem search_tracks_short (ranked : List SearchResult) (q : String) (page : Nat)
    (top : SearchResult)
    (hw : ((ranked.drop ((page - 1) * 3)).take 3).head? = some top)
    (hs : 2 ≤ top.score) :
    search_tracks ranked q page =
      if (page - 1) * 3 + 1 < ranked.length then
        some (BotReply.sendTracks ((ranked.take 1).map SearchResult.track)
          (Keyboard.showMoreKb (mkLabel page ranked.length q)))
      else
        some (BotReply.sendTracks ((ranked.take 1).map SearchResult.track) Keyboard.hideKb) := by
  have hne := window_nonempty ranked ((page - 1) * 3) top hw
  simp only [search_tracks, if_neg hne]
  rw [hw]
  simp only [if_pos hs]
  have h1 : (ranked.length + 1 - 1) / 1 = ranked.length := by omega
  rw [h1]

/-- Evaluation of `search_tracks` on the ordinary path (windowed top score
`< 2`): the full window is sent; "show more" iff `count > offset + 3`, with
`pages = ceil(count/3)`. -/
theorem search_tracks_noshort (ranked : List SearchResult) (q : String) (page : Nat)
    (top : SearchResult)
    (hw : ((ranked.drop ((page - 1) * 3)).take 3).head? = some top)
    (hs : top.score < 2) :
    search_tracks ranked q page =
      if (page - 1) * 3 + 3 < ranked.length then
        some (BotReply.sendTracks (((ranked.drop ((page - 1) * 3)).take 3).map SearchResult.track)
          (Keyboard.showMoreKb (mkLabel page ((ranked.length + 2) / 3) q)))
      else
        some (BotReply.sendTracks (((ranked.drop ((page - 1) * 3)).take 3).map SearchResult.track)
          Keyboard.hideKb) := by
  have hne := window_nonempty ranked ((page - 1) * 3) top hw
  have hs' : ¬ 2 ≤ top.score := not_le.mpr hs
  simp only [search_tracks, if_neg hne]
  rw [hw]
  simp only [if_neg hs']
  have h1 : ranked.length + 3 - 1 = ranked.length + 2 := by omega
  rw [h1]


/-! ## Sample data for witnesses and counterexamples -/

/-- Sample track with an exact-match-level score in the samples below. -/
def trA : Track :=
  { file_id := "fa", title := some "Summer of Haze", performer := some "SoH",
    duration := some 180, file_size := some 1000, sender := 1 }

def trB : Track :=
  { file_id := "fb", title := some "Haze", performer := none,
    duration := none, file_size := none, sender := 2 }

def trC : Track :=
  { file_id := "fc", title := some "Hazey", performer := none,
    duration := none, file_size := none, sender := 3 }

def trD : Track :=
  { file_id := "fd", title := some "Purple Haze", performer := none,
    duration := none, file_size := none, sender := 4 }

/-- Two matches, the top one with score `3 ≥ 2`: the short-circuit fires
while `totalCount = 2 > 1`. -/
def cexRanked : List SearchResult :=
  [{ track := trA, score := 3 }, { track := trB, score := 1 }]

/-- Claim C1, counterexample: on `cexRanked` (top windowed score `3 ≥ 2`,
`totalCount = 2 > 1`) page 1 emits exactly the top track, but the reply
keyboard is the "show more" keyboard `(1/2)`, not `hide_keyboard`: the code
computes `show_more = count > offset + 1 = true`, so pagination is NOT
suppressed, refuting `showMore = false`. -/
theorem C1_counterexample :
    ((cexRanked.drop ((1 - 1) * 3)).take 3).head? = some { track := trA, score := 3 } ∧
    (2 : ℚ) ≤ ({ track := trA, score := 3 } : SearchResult).score ∧
    1 < cexRanked.length ∧
    search_tracks cexRanked "haze" 1 =
      some (BotReply.sendTracks [trA] (Keyboard.showMoreKb (mkLabel 1 2 "haze"))) ∧
    keyboardOf (search_tracks cexRanked "haze" 1) ≠ some Keyboard.hideKb := by
  refine ⟨rfl, by norm_num, by decide, rfl, ?_⟩
  decide

/-- Claim C1 (amended): when the top-ranked result of the returned window
has score `≥ 2`, `search_tracks` emits exactly one track — the globally
top-ranked result `r0` (the pymongo re-slice `results[:1]` overrides the
window's skip; on page 1, `r0` is the window's top itself) — and pagination
is not suppressed: because `limit` is rebound to 1 before `show_more` is
computed, the "show more" keyboard (with `totalPages = ceil(totalCount/1) =
totalCount`) is attached iff `totalCount > offset + 1`; `hide_keyboard`
only otherwise. -/
theorem C1_amended (ranked : List SearchResult) (q : String) (page : Nat)
    (top r0 : SearchResult)
    (hw : ((ranked.drop ((page - 1) * 3)).take 3).head? = some top)
    (hs : 2 ≤ top.score)
    (hr : ranked.head? = some r0) :
    tracksOf (search_tracks ranked q page) = some [r0.track] ∧
    keyboardOf (search_tracks ranked q page) =
      some (if (page - 1) * 3 + 1 < ranked.length
            then Keyboard.showMoreKb (mkLabel page ranked.length q)
            else Keyboard.hideKb) := by
  rw [search_tracks_short ranked q page top hw hs]
  have ht := take_one_eq ranked r0 hr
  by_cases hc : (page - 1) * 3 + 1 < ranked.length
  · simp [tracksOf, keyboardOf, hc, ht]
  · simp [tracksOf, keyboardOf, hc, ht]

/-- Single exact match: the short-circuit fires and, `totalCount = 1` not
exceeding `offset + 1`, the keyboard is hidden. -/
def w1Ranked : List SearchResult := [{ track := trA, score := 3 }]

/-- Witness for `C1_amended` at `w1Ranked`, query `"haze"`, page 1. -/
theorem C1_witness :
    ((w1Ranked.drop ((1 - 1) * 3)).take 3).head? = some { track := trA, score := 3 } ∧
    (2 : ℚ) ≤ ({ track := trA, score := 3 } : SearchResult).score ∧
    w1Ranked.head? = some { track := trA, score := 3 } ∧
    (tracksOf (search_tracks w1Ranked "haze" 1) = some [trA] ∧
     keyboardOf (search_tracks w1Ranked "haze" 1) =
       some (if (1 - 1) * 3 + 1 < w1Ranked.length
             then Keyboard.showMoreKb (mkLabel 1 w1Ranked.length "haze")
             else Keyboard.hideKb)) :=
  ⟨rfl, by norm_num, rfl, C1_amended w1Ranked "haze" 1 _ _ rfl (by norm_num) rfl⟩


/-- Claim C2, counterexample: the round trip fails for reachable
newline-containing queries.  The `default` handler (src/bot.py:86-88)
passes `message["text"]` verbatim to `search_tracks`, so a two-line query
is legal and the engine embeds it in the emitted label.  `.` does not match
a newline, so on the label for query `"a\nb"` the `more` pattern has no
closing quote before the newline and matches at no position of the text
(the label contains no other digit-run after a parenthesis): the handler
never fires.  And on the label for query `a"b\nc` the regex backtracks to
the inner quote and fires the handler with the TRUNCATED query `"a"` —
in neither case is a search for the same query issued at `page + 1`. -/
theorem C2_counterexample :
    moreArgs (mkLabel 1 2 "a\nb") = none ∧
    moreArgs (mkLabel 1 2 "a\nb") ≠ some ("a\nb", 2) ∧
    moreArgs (mkLabel 1 2 "a\x22b\nc") = some ("a", 2) ∧
    moreArgs (mkLabel 1 2 "a\x22b\nc") ≠ some ("a\x22b\nc", 2) :=
  ⟨rfl, by decide, rfl, by decide⟩

/-- Claim C2 (amended): round-trip of the stateless continuation, for every
page, totalPages and every non-empty, newline-free query.  The "show more"
button label the engine emits with continuation metadata
`(page, totalPages, query)` is matched by the `more` handler's pattern
(case-insensitively, as the transport dispatches commands), and the handler
then issues a search for the same query at `page + 1`.  Outside that
domain the round trip can fail (see `C2_counterexample`): a newline in the
query makes the greedy `(.+)"` capture fail or truncate at an inner
quote. -/
theorem C2_continuation_roundtrip (page pages : Nat) (query : String)
    (hq : query.data ≠ []) (hn : query.data.contains nlCh = false) :
    moreArgs (mkLabel page pages query) = some (query, page + 1) := by
  unfold moreArgs mkLabel
  rw [show (String.mk (mkLabelData page pages query.data)).data
      = mkLabelData page pages query.data from rfl]
  rw [parseMore_mkLabelData page pages query.data hq hn]

/-- Witness for `C2_continuation_roundtrip`: the label `(1/2) Show more for
"haze"` is parsed back into a search for `"haze"` at page 2. -/
theorem C2_witness :
    ("haze" : String).data ≠ [] ∧
    ("haze" : String).data.contains nlCh = false ∧
    moreArgs (mkLabel 1 2 "haze") = some ("haze", 2) :=
  ⟨by decide, by decide, C2_continuation_roundtrip 1 2 "haze" (by decide) (by decide)⟩

/-- Claim C3: on the non-short-circuit path (windowed top score `< 2`),
with `limit = 3` and `page ≥ 1`, the emitted window is
`ranked[offset : offset+3]` at `offset = (page-1)*3`, `showMore` holds iff
`totalCount > page*3`, and when it does the continuation label carries
`(page, totalPages = ceil(totalCount/3), query)`. -/
theorem C3_pagination (ranked : List SearchResult) (q : String) (page : Nat)
    (top : SearchResult)
    (hp : 1 ≤ page)
    (hw : ((ranked.drop ((page - 1) * 3)).take 3).head? = some top)
    (hs : top.score < 2) :
    search_tracks ranked q page =
      some (BotReply.sendTracks
        (((ranked.drop ((page - 1) * 3)).take 3).map SearchResult.track)
        (if page * 3 < ranked.length
         then Keyboard.showMoreKb (mkLabel page ((ranked.length + 2) / 3) q)
         else Keyboard.hideKb)) ∧
    ((∃ lbl, keyboardOf (search_tracks ranked q page) = some (Keyboard.showMoreKb lbl)) ↔
      ranked.length > page * 3) := by
  have heq : (page - 1) * 3 + 3 = page * 3 := by omega
  have h1 := search_tracks_noshort ranked q page top hw hs
  rw [heq] at h1
  constructor
  · rw [h1]
    by_cases hc : page * 3 < ranked.length
    · simp [hc]
    · simp [hc]
  · rw [h1]
    by_cases hc : page * 3 < ranked.length
    · simp [keyboardOf, hc]
    · simp [keyboardOf, hc]

/-- Seven loosely matching results (spec §8 scenario), none with score
`≥ 2`. -/
def w3Ranked : List SearchResult :=
  [{ track := trA, score := 1 }, { track := trB, score := 1 },
   { track := trC, score := 1 }, { track := trD, score := 1 }]

/-- Witness for `C3_pagination`: 4 matches at page 1 give the first 3
tracks, a "show more" keyboard and `totalPages = 2`. -/
theorem C3_witness :
    1 ≤ 1 ∧
    ((w3Ranked.drop ((1 - 1) * 3)).take 3).head? = some { track := trA, score := 1 } ∧
    ({ track := trA, score := 1 } : SearchResult).score < 2 ∧
    (search_tracks w3Ranked "haze" 1 =
      some (BotReply.sendTracks
        (((w3Ranked.drop ((1 - 1) * 3)).take 3).map SearchResult.track)
        (if 1 * 3 < w3Ranked.length
         then Keyboard.showMoreKb (mkLabel 1 ((w3Ranked.length + 2) / 3) "haze")
         else Keyboard.hideKb)) ∧
     ((∃ lbl, keyboardOf (search_tracks w3Ranked "haze" 1) = some (Keyboard.showMoreKb lbl)) ↔
       w3Ranked.length > 1 * 3)) :=
  ⟨le_refl 1, rfl, by norm_num,
   C3_pagination w3Ranked "haze" 1 _ (le_refl 1) rfl (by norm_num)⟩


/-- Claim C4: for every store containing a track with the submission's
`file_id`, `add_track` is a silent no-op — store unchanged, no message —
whatever the rest of the payload (in particular a missing title): the dedup
lookup precedes title validation. -/
theorem C4_duplicate_silent_noop (s : DBState) (sender : Nat) (audio : Audio)
    (h : ∃ t ∈ s.tracks, t.file_id = audio.file_id) :
    add_track s sender audio = (s, none) := by
  obtain ⟨t, ht, hid⟩ := h
  unfold add_track
  rw [if_pos]
  exact List.any_eq_true.mpr ⟨t, ht, by simp [hid]⟩

/-- A store already holding `trA`. -/
def wStore : DBState := { tracks := [trA], users := [1] }

/-- A resubmission of `trA`'s `file_id` with no title at all. -/
def wDupAudio : Audio :=
  { file_id := "fa", title := none, performer := none, duration := none, file_size := none }

/-- Witness for `C4_duplicate_silent_noop`: resubmitting `fa` (title-less)
leaves the store untouched and sends nothing. -/
theorem C4_witness :
    (∃ t ∈ wStore.tracks, t.file_id = wDupAudio.file_id) ∧
    add_track wStore 9 wDupAudio = (wStore, none) :=
  ⟨by decide, C4_duplicate_silent_noop wStore 9 wDupAudio (by decide)⟩

/-- Claim C7: a submission whose `file_id` is new and which lacks a title is
rejected: the corrective message is sent and the store is not mutated,
regardless of the payload's other fields. -/
theorem C7_missing_title_rejected (s : DBState) (sender : Nat) (audio : Audio)
    (h1 : ∀ t ∈ s.tracks, t.file_id ≠ audio.file_id)
    (h2 : audio.title = none) :
    add_track s sender audio = (s, some missing_title_msg) := by
  unfold add_track
  rw [if_neg, h2]
  intro hc
  obtain ⟨t, ht, he⟩ := List.any_eq_true.mp hc
  exact h1 t ht (by simpa using he)

/-- A fresh, title-less submission. -/
def wNewAudio : Audio :=
  { file_id := "fz", title := none, performer := some "X", duration := some 3,
    file_size := some 77 }

/-- Witness for `C7_missing_title_rejected` against `wStore`. -/
theorem C7_witness :
    (∀ t ∈ wStore.tracks, t.file_id ≠ wNewAudio.file_id) ∧
    wNewAudio.title = none ∧
    add_track wStore 9 wNewAudio = (wStore, some missing_title_msg) :=
  ⟨by decide, rfl, C7_missing_title_rejected wStore 9 wNewAudio (by decide) rfl⟩

/-- Claim C6: a query with `totalCount = 0` yields the terminal not-found
outcome: the fixed `not_found` message, no tracks, no continuation. -/
theorem C6_empty_not_found (ranked : List SearchResult) (q : String) (page : Nat)
    (h : ranked.length = 0) :
    search_tracks ranked q page = some (BotReply.sendText not_found) := by
  simp only [search_tracks]
  rw [if_pos h]

/-- Witness for `C6_empty_not_found` on the spec's `"zzzznotfound"`
scenario. -/
theorem C6_witness :
    ([] : List SearchResult).length = 0 ∧
    search_tracks [] "zzzznotfound" 1 = some (BotReply.sendText not_found) :=
  ⟨rfl, C6_empty_not_found [] "zzzznotfound" 1 rfl⟩

/-- Claim C9 (implicit): the exact-match short-circuit is evaluated on every
page, not only page 1 — whenever the first element of page `k`'s window has
score `≥ 2`, exactly one track is emitted for that page (the globally
top-ranked one, the `results[:1]` slice having overridden the window's
skip). -/
theorem C9_short_circuit_any_page (ranked : List SearchResult) (q : String) (page : Nat)
    (top : SearchResult)
    (_hp : 1 ≤ page)
    (hw : ((ranked.drop ((page - 1) * 3)).take 3).head? = some top)
    (hs : 2 ≤ top.score) :
    ∃ r, ranked.head? = some r ∧
      tracksOf (search_tracks ranked q page) = some [r.track] := by
  have hne := window_nonempty ranked ((page - 1) * 3) top hw
  obtain ⟨r, hr⟩ : ∃ r, ranked.head? = some r := by
    cases ranked with
    | nil => simp at hne
    | cons a l => exact ⟨a, rfl⟩
  refine ⟨r, hr, ?_⟩
  rw [search_tracks_short ranked q page top hw hs]
  have ht := take_one_eq ranked r hr
  by_cases hc : (page - 1) * 3 + 1 < ranked.length
  · simp [tracksOf, hc, ht]
  · simp [tracksOf, hc, ht]

/-- Page 2's window (offset 3) starts with a score-3 result. -/
def w9Ranked : List SearchResult :=
  [{ track := trB, score := 1 }, { track := trC, score := 1 },
   { track := trD, score := 1 }, { track := trA, score := 3 }]

/-- Witness for `C9_short_circuit_any_page` at page 2: the score-3 result
heads page 2's window, and exactly one track is emitted (the global head
`trB`, the slice having reset the skip). -/
theorem C9_witness :
    1 ≤ 2 ∧
    ((w9Ranked.drop ((2 - 1) * 3)).take 3).head? = some { track := trA, score := 3 } ∧
    (2 : ℚ) ≤ ({ track := trA, score := 3 } : SearchResult).score ∧
    (∃ r, w9Ranked.head? = some r ∧
      tracksOf (search_tracks w9Ranked "haze" 2) = some [r.track]) :=
  ⟨by norm_num, rfl, by norm_num,
   C9_short_circuit_any_page w9Ranked "haze" 2 _ (by norm_num) rfl (by norm_num)⟩

/-- Claim C10 (implicit): `search_tracks` is read-only — both the `tracks`
and the `users` collections are unchanged by a search, whatever the index
scoring, store, query or page: the handler only issues `find`/`count`. -/
theorem C10_search_readonly (sc : String → Track → ℚ) (s : DBState) (q : String)
    (page : Nat) :
    (search_tracks_st sc s q page).1.tracks = s.tracks ∧
    (search_tracks_st sc s q page).1.users = s.users :=
  ⟨rfl, rfl⟩

/-- Claim C5: the spec requires `HumanSize(0)` to be special-cased and
return a defined string; the code instead feeds 0 to `math.log10`, which
raises `ValueError` (modelled as `none`): evaluating the model at the
failing input 0 yields no string. -/
theorem C5_human_size_zero_raises : human_size 0 = none := rfl

/-- The rank exactly as the claim's formula states it,
`min(⌊log10 bytes / 3⌋, 5)` over the reals: the exact floor is realised by
the digit count (`natDigits_length_log` identifies it with `Nat.log 10`). -/
def claimRank (n : Nat) : Nat := min (((natDigits n).length - 1) / 3) 5

/-- Rendering of the claim's reference formula — the string `HumanSize`
would return if `math.log10` were exact — with the same scaling and string
pipeline as the code. -/
def humanSizeClaim (n : Nat) : String :=
  String.mk (rstripCh '.' (rstripCh '0' (fmtCents (cents n (1024 ^ claimRank n)))))
    ++ " " ++ unitFor (claimRank n)

/-- Claim C8, counterexample: at `nbytes = 10^15 − 1` the exact formula
gives `⌊log10 n⌋ = 14`, rank `min(14/3, 5) = 4` and `"909.49 TB"`, but the
IEEE double `math.log10` returns exactly `15.0` there (the true log is
within a half-ulp of 15), so the code computes rank 5 and prints
`"0.89 PB"` — the claim's universal rank formula is false of the program. -/
theorem C8_counterexample :
    min (Nat.log 10 999999999999999 / 3) 5 = 4 ∧
    humanSizeClaim 999999999999999 = "909.49 TB" ∧
    human_size 999999999999999 = some "0.89 PB" ∧
    human_size 999999999999999 ≠ some (humanSizeClaim 999999999999999) := by
  refine ⟨?_, rfl, rfl, by decide⟩
  rw [← natDigits_length_log 999999999999999 (by norm_num)]
  rfl

/-- Claim C8 (amended): for every positive byte count below `2^53` (the
range on which the float scaling and `'%.2f'` rendering are exact) other
than `10^15 − 1` and `10^15 − 2`, the code's rank is the claim's
`min(⌊log10 bytes / 3⌋, 5)` — via `⌊log10 n / 3⌋ = ⌊⌊log10 n⌋ / 3⌋ =
Nat.log 10 n / 3` — and the value is scaled by `1024^rank` and rendered to
at most 2 decimals (round-half-even) with trailing zeros and a trailing
point stripped, followed by that rank's unit; at the two excluded inputs
the IEEE rounding of `log10` yields rank 5 instead, e.g.
`human_size (10^15 − 1) = "0.89 PB"`; and the spec's two examples hold. -/
theorem C8_human_size_float (n : Nat) (h1 : 1 ≤ n) (_h2 : n < 2 ^ 53)
    (hexc : ¬ (n = 10 ^ 15 - 1 ∨ n = 10 ^ 15 - 2)) :
    human_size n =
      some (String.mk (rstripCh '.' (rstripCh '0'
          (fmtCents (cents n (1024 ^ min (Nat.log 10 n / 3) 5)))))
        ++ " " ++ unitFor (min (Nat.log 10 n / 3) 5)) ∧
    human_size 999999999999999 = some "0.89 PB" ∧
    human_size 1536 = some "1.5 KB" ∧
    human_size 1073741824 = some "1 GB" := by
  refine ⟨?_, rfl, rfl, rfl⟩
  unfold human_size floatLog10Floor
  rw [if_neg (by omega : ¬ n = 0), if_neg hexc, natDigits_length_log n h1]

/-- Witness for `C8_human_size_float` at 1536 bytes. -/
theorem C8_witness :
    1 ≤ 1536 ∧ 1536 < 2 ^ 53 ∧ ¬ (1536 = 10 ^ 15 - 1 ∨ 1536 = 10 ^ 15 - 2) ∧
    (human_size 1536 =
      some (String.mk (rstripCh '.' (rstripCh '0'
          (fmtCents (cents 1536 (1024 ^ min (Nat.log 10 1536 / 3) 5)))))
        ++ " " ++ unitFor (min (Nat.log 10 1536 / 3) 5)) ∧
    human_size 999999999999999 = some "0.89 PB" ∧
    human_size 1536 = some "1.5 KB" ∧
    human_size 1073741824 = some "1 GB") :=
  ⟨by norm_num, by norm_num, by decide,
   C8_human_size_float 1536 (by norm_num) (by norm_num) (by decide)⟩

end Musicbot
